import Mathlib

/-!
Shallow embedding of the working-copy / diff core of the `jj` version-control
tool, translated from `cli/src/commands/diff.rs` and `lib/src/working_copy.rs`,
together with theorems checking the natural-language specification against it.

External collaborators (backend, tree merger, matcher, renderer) appear as
function-valued fields of a `Repo` environment; calls the command makes to
them are recorded in the outcome so that theorems can speak about which
queries were issued.
-/

namespace JJ

/-- Command-level error channel (`CommandError` in the source); its structure
is irrelevant to the claims, so it is an opaque message. -/
abbrev CmdError := String

/-- Content-address of a commit. -/
abbrev CommitId := Nat

/-- A revision reference as typed by the caller (`RevisionArg`). -/
abbrev RevisionArg := String

/-- Rust `RevisionArg::AT`: the reference denoting the current working-copy
revision. -/
def RevisionArg.AT : RevisionArg := "@"

/-- A commit handle; operations on it (tree, parents) go through the
repository environment, as in the source where `Commit` methods read from the
store. -/
structure Commit where
  id : CommitId
deriving DecidableEq, Repr

/-- A (merged) tree, abstracted to the set of repository paths at which it has
content; only path membership is consulted by this core. -/
abbrev Tree := List String

/-- Copy/rename evidence between a source path and a target path
(`CopyRecord`); kind/confidence is opaque to this core. -/
structure CopyRecord where
  source : String
  target : String
deriving DecidableEq, Repr

/-- One backend `get_copy_records(path_filter, from, to)` query, as issued by
the command. -/
structure CopyQuery where
  pathFilter : Option (List String)
  fromId : CommitId
  toId : CommitId
deriving DecidableEq, Repr

/-- Rust `CopyRecords::default()`: the empty accumulated collection. -/
def CopyRecords.default : List CopyRecord := []

/-- Modelled from the spec: `CopyRecords::add_records` (in `jj_lib::backend`,
not under `src/`) unions the newly queried records into the accumulated
ordered collection; no de-duplication rule is fixed. -/
def CopyRecords.addRecords (acc newRecords : List CopyRecord) : List CopyRecord :=
  acc ++ newRecords

/-- The repository environment seen by `cmd_diff`: resolution, store reads and
the external collaborators, each fallible exactly where the source uses `?`. -/
structure Repo where
  resolveSingleRev : RevisionArg → Except CmdError Commit
  tree : Commit → Except CmdError Tree
  parents : Commit → Except CmdError (List Commit)
  mergeTrees : List Tree → Tree
  getCopyRecords : Option (List String) → CommitId → CommitId → Except CmdError (List CopyRecord)
  showDiff : Tree → Tree → List String → List CopyRecord → Except CmdError Unit

/-- Modelled from the spec: the external tree-merge collaborator applied to a
sequence of trees — a conflict-preserving union merge, total here, which for a
single tree degenerates to that tree exactly. -/
def Repo.mergeTreeSeq (repo : Repo) : List Tree → Tree
  | [t] => t
  | ts => repo.mergeTrees ts

/-- Modelled from the spec: `merge_commit_trees` (in `jj_lib::rewrite`, not
under `src/`): reads the tree of each given commit and hands the sequence to
the tree-merge collaborator. Returns the synthesized tree together with the
sequence of trees handed to the collaborator, so theorems can refer to the
collaborator's input. -/
def mergeCommitTrees (repo : Repo) (commits : List Commit) :
    Except CmdError (Tree × List Tree) := do
  let trees ← commits.mapM repo.tree
  pure (repo.mergeTreeSeq trees, trees)

/-- The `for p in &parents` loop of `cmd_diff` (diff.rs lines 93-99): one
`get_copy_records(None, p.id(), to.id())` query per parent, results unioned in
order. Also returns the queries issued, in order. -/
def gatherCopyRecords (repo : Repo) (toId : CommitId) :
    List Commit → Except CmdError (List CopyRecord × List CopyQuery)
  | [] => pure (CopyRecords.default, [])
  | p :: ps => do
    let recs ← repo.getCopyRecords none p.id toId
    let (rest, qs) ← gatherCopyRecords repo toId ps
    pure (CopyRecords.addRecords recs rest,
      { pathFilter := none, fromId := p.id, toId := toId } :: qs)

/-- Rust `DiffArgs` (diff.rs lines 41-60): `from`/`to` are mutually exclusive with
`revision` at the CLI layer; `paths` restricts the diff. The output format
arguments are irrelevant to the claims. -/
structure DiffArgs where
  revision : Option RevisionArg
  «from» : Option RevisionArg
  «to» : Option RevisionArg
  paths : List String
deriving Repr

/-- Modelled from the spec: `parse_file_patterns` (in `cli_util`, not under
`src/`) derives a fileset expression from the caller's path arguments; the
expression is represented by its explicit path literals. -/
def parseFilePatterns (paths : List String) : List String := paths

/-- Modelled from the spec: `FilesetExpression::to_matcher` (not under
`src/`); the matcher is opaque to this core and is represented by the
expression it was derived from. -/
def toMatcher (expression : List String) : List String := expression

/-- Modelled from the spec: `print_unmatched_explicit_paths` (in `cli_util`,
not under `src/`): reports, once each, the path literals explicitly named by
the caller that matched neither endpoint tree's content. -/
def printUnmatchedExplicitPaths (expression : List String) (trees : List Tree) :
    List String :=
  (expression.filter fun p => trees.all fun t => !(t.contains p)).dedup

/-- The resolved diff endpoints together with the record of collaborator
interactions made while resolving them: the copy-record queries issued, and
the tree sequence handed to the tree-merge collaborator (`none` when the
merger was not consulted, i.e. in explicit mode). -/
structure ResolvedEndpoints where
  fromTree : Tree
  toTree : Tree
  copyRecords : List CopyRecord
  copyQueries : List CopyQuery
  mergerInput : Option (List Tree)
deriving DecidableEq, Repr

/-- Endpoint resolution, diff.rs lines 69-100: explicit mode when `from` or
`to` was supplied (each missing one defaulting to `RevisionArg::AT`), implicit
mode otherwise (the single `revision`, also defaulting to `AT`, diffed against
the merge of its parents' trees). -/
def resolveDiffEndpoints (repo : Repo) (revision fromArg toArg : Option RevisionArg) :
    Except CmdError ResolvedEndpoints :=
  if fromArg.isSome || toArg.isSome then do
    let fromC ← repo.resolveSingleRev (fromArg.getD RevisionArg.AT)
    let toC ← repo.resolveSingleRev (toArg.getD RevisionArg.AT)
    let fromTree ← repo.tree fromC
    let toTree ← repo.tree toC
    let recs ← repo.getCopyRecords none fromC.id toC.id
    pure { fromTree := fromTree, toTree := toTree,
           copyRecords := CopyRecords.addRecords CopyRecords.default recs,
           copyQueries := [{ pathFilter := none, fromId := fromC.id, toId := toC.id }],
           mergerInput := none }
  else do
    let toC ← repo.resolveSingleRev (revision.getD RevisionArg.AT)
    let parents ← repo.parents toC
    let merged ← mergeCommitTrees repo parents
    let toTree ← repo.tree toC
    let gathered ← gatherCopyRecords repo toC.id parents
    pure { fromTree := merged.1, toTree := toTree,
           copyRecords := gathered.1, copyQueries := gathered.2,
           mergerInput := some merged.2 }

/-- One invocation of the external diff renderer (`show_diff`), with the
arguments it was handed. -/
structure RendererCall where
  fromTree : Tree
  toTree : Tree
  matcher : List String
  copyRecords : List CopyRecord
deriving DecidableEq, Repr

/-- The observable outcome of a successful `cmd_diff` run: the resolved
endpoints and accumulated records, plus the recorded collaborator
interactions (copy-record queries, merger input, renderer invocations) and
the unmatched explicit paths reported by the final pass. -/
structure DiffOutcome where
  fromTree : Tree
  toTree : Tree
  copyRecords : List CopyRecord
  copyQueries : List CopyQuery
  mergerInput : Option (List Tree)
  rendererCalls : List RendererCall
  unmatchedPaths : List String
deriving DecidableEq, Repr

/-- Rust `cmd_diff` (diff.rs lines 63-122): resolve endpoints and gather copy
evidence, derive the matcher from the caller's path patterns, invoke the
renderer, then run the distinct unmatched-explicit-path pass over both
endpoint trees. -/
def cmdDiff (repo : Repo) (args : DiffArgs) : Except CmdError DiffOutcome := do
  let r ← resolveDiffEndpoints repo args.revision args.«from» args.«to»
  let filesetExpression := parseFilePatterns args.paths
  let matcher := toMatcher filesetExpression
  let _ ← repo.showDiff r.fromTree r.toTree matcher r.copyRecords
  let unmatched := printUnmatchedExplicitPaths filesetExpression [r.fromTree, r.toTree]
  pure { fromTree := r.fromTree, toTree := r.toTree,
         copyRecords := r.copyRecords, copyQueries := r.copyQueries,
         mergerInput := r.mergerInput,
         rendererCalls := [{ fromTree := r.fromTree, toTree := r.toTree,
                             matcher := matcher, copyRecords := r.copyRecords }],
         unmatchedPaths := unmatched }

/-! ### Working copy: `lib/src/working_copy.rs`

The file under `src/` declares the `WorkingCopy`/`LockedWorkingCopy` traits,
the `SnapshotError` taxonomy and `SnapshotOptions`; the snapshot engine
itself (`local_working_copy.rs`) is not under `src/`, so the engine below is
modelled from the spec (§4.2 steps 1-6) on top of the types translated from
the source. -/

/-- Raw byte sequence of an operating-system string, which need not be valid
text (`OsString`). -/
abbrev OsString := List Nat

/-- Raw byte sequence of a filesystem path (`PathBuf`). -/
abbrev PathBuf := List Nat

/-- A byte count reported in errors (`HumanByteSize`). -/
abbrev HumanByteSize := Nat

/-- An error from the commit backend, wrapped but not interpreted by the
snapshot engine (`BackendError`). -/
abbrev BackendError := String

/-- Rust `SnapshotError` (working_copy.rs lines 67-107): the five kinds of error a
snapshot can raise, each with the context fields the source declares. The
`other` variant's nested cause is opaque to this core. -/
inductive SnapshotError where
  | invalidUtf8Path (path : OsString)
  | invalidUtf8SymlinkTarget (path : PathBuf) (target : PathBuf)
  | internalBackendError (err : BackendError)
  | newFileTooLarge (path : PathBuf) (size : HumanByteSize) (maxSize : HumanByteSize)
  | other (message : String) (err : String)
deriving DecidableEq, Repr

/-- A path inside the repository, already known to be valid text
(`RepoPath`). -/
abbrev RepoPath := String

/-- The layered ignore rules (`GitIgnoreFile`), abstracted to the set of
repository paths they exclude. -/
abbrev GitIgnoreFile := List RepoPath

/-- Rust `GitIgnoreFile::empty()`. -/
def GitIgnoreFile.empty : GitIgnoreFile := []

/-- The optional filesystem-monitor accelerator selector (`FsmonitorKind`),
opaque: the spec makes it an optimization on which correctness must not
depend, and the modelled engine performs the full walk. -/
abbrev FsmonitorKind := String

/-- Rust `SnapshotProgress` (working_copy.rs line 145): a callback invoked with
each processed path; it returns nothing to the engine. -/
abbrev SnapshotProgress := RepoPath → Unit

/-- Rust `SnapshotOptions` (working_copy.rs lines 111-130). -/
structure SnapshotOptions where
  base_ignores : GitIgnoreFile
  fsmonitor_kind : Option FsmonitorKind
  progress : Option SnapshotProgress
  max_new_file_size : Nat

/-- Rust `SnapshotOptions::empty_for_test()` (working_copy.rs lines 134-141);
`u64::MAX` becomes `2 ^ 64 - 1`. -/
def SnapshotOptions.empty_for_test : SnapshotOptions :=
  { base_ignores := GitIgnoreFile.empty
    fsmonitor_kind := none
    progress := none
    max_new_file_size := 2 ^ 64 - 1 }

/-- One filesystem object seen by the walk: its raw name bytes, its symlink
target when it is a symlink, and its content bytes. -/
structure DiskFile where
  path : OsString
  symlinkTarget : Option OsString
  content : List Nat
deriving DecidableEq, Repr

/-- Modelled from the spec: decoding raw OS bytes as text. Text validity is
modelled as every byte being ASCII, decoded bytewise; this stands in for
UTF-8 validation, which the spec requires but whose byte-level details no
claim depends on. -/
def decodeText (bs : List Nat) : Option String :=
  if bs.all (· < 128) then some (String.mk (bs.map Char.ofNat)) else none

/-- A tree object as stored by the backend: entries from repository path to
content bytes. -/
abbrev TreeEntries := List (RepoPath × List Nat)

/-- Modelled from the spec (§4.2 step 4): the per-file snapshot decision.
The file's name (and, for a symlink, its target) must decode as text; ignored
paths are excluded; a file already tracked in the prior tree is always
included regardless of its size, while a previously-untracked file larger
than `max_new_file_size` aborts with the offending path and both sizes. -/
def snapshotFileEntry (opts : SnapshotOptions) (oldTree : TreeEntries) (f : DiskFile) :
    Except SnapshotError (Option (RepoPath × List Nat)) :=
  match decodeText f.path with
  | none => .error (.invalidUtf8Path f.path)
  | some path =>
    if opts.base_ignores.contains path then .ok none
    else match f.symlinkTarget with
    | some target =>
      match decodeText target with
      | none => .error (.invalidUtf8SymlinkTarget f.path target)
      | some _ => .ok (some (path, target))
    | none =>
      if (oldTree.lookup path).isSome then .ok (some (path, f.content))
      else if opts.max_new_file_size < f.content.length then
        .error (.newFileTooLarge f.path f.content.length opts.max_new_file_size)
      else .ok (some (path, f.content))

/-- Modelled from the spec (§4.2 steps 2-5): the filesystem walk. Each file's
name is decoded, the optional progress observer is invoked with the decoded
path before the engine continues, and the per-file decision is applied; any
per-file error aborts the walk. Returns the new tree's entries together with
the sequence of paths at which the observer is (or would be, when absent)
invoked, exactly one per processed file, in order. -/
def snapshotWalk (opts : SnapshotOptions) (oldTree : TreeEntries) :
    List DiskFile → Except SnapshotError (TreeEntries × List RepoPath)
  | [] => .ok ([], [])
  | f :: fs =>
    match decodeText f.path with
    | none => .error (.invalidUtf8Path f.path)
    | some path =>
      let _ := match opts.progress with
               | some observer => observer path
               | none => ()
      match snapshotFileEntry opts oldTree f with
      | .error e => .error e
      | .ok entry =>
        match snapshotWalk opts oldTree fs with
        | .error e => .error e
        | .ok (entries, invoked) =>
          .ok ((match entry with
                | some en => en :: entries
                | none => entries), path :: invoked)

/-- The persisted Working-Copy Record: `(workspace_id, operation_id,
tree_id)`. -/
structure WorkingCopyRecord where
  workspace_id : String
  operation_id : Nat
  tree_id : Nat
deriving DecidableEq, Repr

/-- The persisted state a snapshot may mutate: the Working-Copy Record and
the backend's committed (reachable) tree objects. -/
structure SnapshotState where
  record : WorkingCopyRecord
  backendTrees : List (Nat × TreeEntries)
deriving DecidableEq, Repr

/-- The Lock Guard's captured values: `old_operation_id` and `old_tree_id`
(working_copy.rs lines 56-60). -/
structure LockGuard where
  old_operation_id : Nat
  old_tree_id : Nat
deriving DecidableEq, Repr

/-- The collaborators of one snapshot attempt: the backend's fallible tree
write, and the operation-log position the record will advance to on
success. -/
structure SnapshotEnv where
  writeTree : TreeEntries → Except BackendError Nat
  new_operation_id : Nat

/-- Modelled from the spec: `LockedWorkingCopy::snapshot` (working_copy.rs
lines 62-63; the engine in `local_working_copy.rs` is not under `src/`).
Step 1 re-validates the record against the guard's captured operation id;
steps 2-5 walk the filesystem; step 6 persists the new tree and atomically
updates the record together with it. Every failure returns the error with the
persisted state unchanged. -/
def LockedWorkingCopy.snapshot (env : SnapshotEnv) (st : SnapshotState)
    (guard : LockGuard) (opts : SnapshotOptions) (disk : List DiskFile) :
    Except SnapshotError Nat × SnapshotState :=
  if st.record.operation_id ≠ guard.old_operation_id then
    (.error (.other "concurrent working-copy change" "stale record"), st)
  else
    match snapshotWalk opts ((st.backendTrees.lookup guard.old_tree_id).getD []) disk with
    | .error e => (.error e, st)
    | .ok (entries, _) =>
      match env.writeTree entries with
      | .error e => (.error (.internalBackendError e), st)
      | .ok treeId =>
        (.ok treeId,
         { record := { workspace_id := st.record.workspace_id
                       operation_id := env.new_operation_id
                       tree_id := treeId }
           backendTrees := st.backendTrees ++ [(treeId, entries)] })

/-! ### Helper lemmas -/

theorem except_bind_ok_iff {ε α β : Type} {x : Except ε α} {f : α → Except ε β} {b : β} :
    x >>= f = .ok b ↔ ∃ a, x = .ok a ∧ f a = .ok b := by
  cases x <;> simp [Bind.bind, Except.bind]

theorem except_pure_ok_iff {ε α : Type} {a b : α} :
    (pure a : Except ε α) = .ok b ↔ a = b := by
  constructor
  · intro h
    exact (Except.ok.injEq a b).mp h
  · intro h
    rw [h]
    rfl

theorem mergeTreeSeq_singleton (repo : Repo) (t : Tree) :
    repo.mergeTreeSeq [t] = t := rfl

theorem mergeTreeSeq_nil (repo : Repo) :
    repo.mergeTreeSeq [] = repo.mergeTrees [] := rfl

theorem mergeCommitTrees_ok {repo : Repo} {commits : List Commit}
    {merged : Tree × List Tree}
    (h : mergeCommitTrees repo commits = .ok merged) :
    ∃ trees, commits.mapM repo.tree = .ok trees ∧
      merged = (repo.mergeTreeSeq trees, trees) := by
  unfold mergeCommitTrees at h
  obtain ⟨trees, hts, hp⟩ := except_bind_ok_iff.mp h
  exact ⟨trees, hts, (except_pure_ok_iff.mp hp).symm⟩

theorem mapM_tree_singleton {repo : Repo} {p : Commit} {trees : List Tree}
    (h : List.mapM repo.tree [p] = .ok trees) :
    ∃ t, repo.tree p = .ok t ∧ trees = [t] := by
  rw [List.mapM_cons, List.mapM_nil] at h
  cases htp : repo.tree p with
  | error e => rw [htp] at h; simp [Bind.bind, Except.bind] at h
  | ok t =>
    rw [htp] at h
    refine ⟨t, rfl, ?_⟩
    simpa [Bind.bind, Except.bind, Pure.pure, Except.pure] using h.symm

theorem gatherCopyRecords_ok {repo : Repo} {toId : CommitId} :
    ∀ {ps : List Commit} {res : List CopyRecord × List CopyQuery},
    gatherCopyRecords repo toId ps = .ok res →
    res.2 = ps.map (fun p => { pathFilter := none, fromId := p.id, toId := toId }) ∧
    ∃ recss, List.Forall₂
        (fun (p : Commit) rs => repo.getCopyRecords none p.id toId = .ok rs) ps recss ∧
      res.1 = recss.flatten
  | [], res, h => by
    rw [gatherCopyRecords] at h
    have hres := (except_pure_ok_iff.mp h).symm
    subst hres
    exact ⟨rfl, [], List.Forall₂.nil, rfl⟩
  | p :: ps, res, h => by
    rw [gatherCopyRecords] at h
    obtain ⟨recs, hrecs, h⟩ := except_bind_ok_iff.mp h
    obtain ⟨rest, hrest, h⟩ := except_bind_ok_iff.mp h
    have hres := (except_pure_ok_iff.mp h).symm
    subst hres
    obtain ⟨hqs, recss, hall, hjoin⟩ := gatherCopyRecords_ok hrest
    refine ⟨?_, recs :: recss, List.Forall₂.cons hrecs hall, ?_⟩
    · simpa [List.map_cons] using hqs
    · simpa [List.flatten, CopyRecords.addRecords] using hjoin

theorem resolveDiffEndpoints_implicit_inv {repo : Repo} {revision : Option RevisionArg}
    {r : ResolvedEndpoints}
    (h : resolveDiffEndpoints repo revision none none = .ok r) :
    ∃ toC parents merged toTree gathered,
      repo.resolveSingleRev (revision.getD RevisionArg.AT) = .ok toC ∧
      repo.parents toC = .ok parents ∧
      mergeCommitTrees repo parents = .ok merged ∧
      repo.tree toC = .ok toTree ∧
      gatherCopyRecords repo toC.id parents = .ok gathered ∧
      r = { fromTree := merged.1, toTree := toTree, copyRecords := gathered.1,
            copyQueries := gathered.2, mergerInput := some merged.2 } := by
  unfold resolveDiffEndpoints at h
  rw [if_neg (by simp)] at h
  obtain ⟨toC, h1, h⟩ := except_bind_ok_iff.mp h
  obtain ⟨parents, h2, h⟩ := except_bind_ok_iff.mp h
  obtain ⟨merged, h3, h⟩ := except_bind_ok_iff.mp h
  obtain ⟨toTree, h4, h⟩ := except_bind_ok_iff.mp h
  obtain ⟨gathered, h5, h⟩ := except_bind_ok_iff.mp h
  exact ⟨toC, parents, merged, toTree, gathered, h1, h2, h3, h4, h5,
    (except_pure_ok_iff.mp h).symm⟩

theorem resolveDiffEndpoints_explicit_inv {repo : Repo}
    {revision fromArg toArg : Option RevisionArg} {r : ResolvedEndpoints}
    (hmode : fromArg.isSome || toArg.isSome)
    (h : resolveDiffEndpoints repo revision fromArg toArg = .ok r) :
    ∃ fromC toC fromTree toTree recs,
      repo.resolveSingleRev (fromArg.getD RevisionArg.AT) = .ok fromC ∧
      repo.resolveSingleRev (toArg.getD RevisionArg.AT) = .ok toC ∧
      repo.tree fromC = .ok fromTree ∧
      repo.tree toC = .ok toTree ∧
      repo.getCopyRecords none fromC.id toC.id = .ok recs ∧
      r = { fromTree := fromTree, toTree := toTree,
            copyRecords := CopyRecords.addRecords CopyRecords.default recs,
            copyQueries := [{ pathFilter := none, fromId := fromC.id, toId := toC.id }],
            mergerInput := none } := by
  unfold resolveDiffEndpoints at h
  rw [if_pos hmode] at h
  obtain ⟨fromC, h1, h⟩ := except_bind_ok_iff.mp h
  obtain ⟨toC, h2, h⟩ := except_bind_ok_iff.mp h
  obtain ⟨fromTree, h3, h⟩ := except_bind_ok_iff.mp h
  obtain ⟨toTree, h4, h⟩ := except_bind_ok_iff.mp h
  obtain ⟨recs, h5, h⟩ := except_bind_ok_iff.mp h
  exact ⟨fromC, toC, fromTree, toTree, recs, h1, h2, h3, h4, h5,
    (except_pure_ok_iff.mp h).symm⟩

theorem cmdDiff_ok_inv {repo : Repo} {args : DiffArgs} {out : DiffOutcome}
    (h : cmdDiff repo args = .ok out) :
    ∃ r, resolveDiffEndpoints repo args.revision args.«from» args.«to» = .ok r ∧
      repo.showDiff r.fromTree r.toTree (toMatcher (parseFilePatterns args.paths))
        r.copyRecords = .ok () ∧
      out = { fromTree := r.fromTree, toTree := r.toTree,
              copyRecords := r.copyRecords, copyQueries := r.copyQueries,
              mergerInput := r.mergerInput,
              rendererCalls := [{ fromTree := r.fromTree, toTree := r.toTree,
                                  matcher := toMatcher (parseFilePatterns args.paths),
                                  copyRecords := r.copyRecords }],
              unmatchedPaths := printUnmatchedExplicitPaths
                (parseFilePatterns args.paths) [r.fromTree, r.toTree] } := by
  unfold cmdDiff at h
  obtain ⟨r, h1, h⟩ := except_bind_ok_iff.mp h
  obtain ⟨u, h2, h⟩ := except_bind_ok_iff.mp h
  exact ⟨r, h1, h2, (except_pure_ok_iff.mp h).symm⟩

/-! ### Concrete data used by the witnesses -/

/-- A small concrete repository: the working-copy revision "@" resolves to
commit 2, whose single parent is commit 1. -/
def demoRepo : Repo :=
  { resolveSingleRev := fun r =>
      if r = "@" then .ok { id := 2 }
      else if r = "p1" then .ok { id := 1 }
      else .error "revision not found"
    tree := fun c =>
      if c.id = 1 then .ok ["a.txt"]
      else if c.id = 2 then .ok ["a.txt", "b.txt"]
      else .error "no tree"
    parents := fun c => if c.id = 2 then .ok [{ id := 1 }] else .ok []
    mergeTrees := fun ts => ts.flatten.dedup
    getCopyRecords := fun _ a b => .ok [{ source := toString a, target := toString b }]
    showDiff := fun _ _ _ _ => .ok () }

def demoArgsImplicit : DiffArgs :=
  { revision := none, «from» := none, «to» := none, paths := ["a.txt", "zzz"] }

def demoArgsExplicit : DiffArgs :=
  { revision := none, «from» := some "p1", «to» := none, paths := [] }

/-- A repository whose working-copy revision (commit 1) has zero parents. -/
def demoRepoRoot : Repo :=
  { resolveSingleRev := fun r =>
      if r = "@" then .ok { id := 1 } else .error "revision not found"
    tree := fun c => if c.id = 1 then .ok ["r.txt"] else .error "no tree"
    parents := fun _ => .ok []
    mergeTrees := fun ts => ts.flatten.dedup
    getCopyRecords := fun _ a b => .ok [{ source := toString a, target := toString b }]
    showDiff := fun _ _ _ _ => .ok () }

def demoArgsRoot : DiffArgs :=
  { revision := none, «from» := none, «to» := none, paths := [] }

/-! ### Claim theorems -/

/-- C1: in implicit mode (no from/to), `to_tree` is the resolved revision's
own tree and `from_tree` is the tree-merge collaborator's merge of the trees
of its parents; with exactly one parent `P1`, `from_tree` equals `tree(P1)`
exactly. -/
theorem implicit_diff_endpoints (repo : Repo) (args : DiffArgs) (out : DiffOutcome)
    (hfrom : args.«from» = none) (hto : args.«to» = none)
    (hok : cmdDiff repo args = .ok out) :
    ∃ toC parents trees,
      repo.resolveSingleRev (args.revision.getD RevisionArg.AT) = .ok toC ∧
      repo.parents toC = .ok parents ∧
      parents.mapM repo.tree = .ok trees ∧
      repo.tree toC = .ok out.toTree ∧
      out.fromTree = repo.mergeTreeSeq trees ∧
      (∀ p, parents = [p] → ∃ t, repo.tree p = .ok t ∧ out.fromTree = t) := by
  obtain ⟨r, hres, hshow, hout⟩ := cmdDiff_ok_inv hok
  rw [hfrom, hto] at hres
  obtain ⟨toC, parents, merged, toTree, gathered, h1, h2, h3, h4, h5, hr⟩ :=
    resolveDiffEndpoints_implicit_inv hres
  obtain ⟨trees, hts, hm⟩ := mergeCommitTrees_ok h3
  subst hout hr hm
  refine ⟨toC, parents, trees, h1, h2, hts, h4, rfl, ?_⟩
  intro p hp
  subst hp
  obtain ⟨t, htp, htt⟩ := mapM_tree_singleton hts
  subst htt
  exact ⟨t, htp, rfl⟩

theorem implicit_diff_endpoints_witness :
    ∃ toC parents trees,
      demoRepo.resolveSingleRev (demoArgsImplicit.revision.getD RevisionArg.AT) = .ok toC ∧
      demoRepo.parents toC = .ok parents ∧
      parents.mapM demoRepo.tree = .ok trees ∧
      demoRepo.tree toC = .ok (["a.txt", "b.txt"] : Tree) ∧
      (["a.txt"] : Tree) = demoRepo.mergeTreeSeq trees ∧
      (∀ p, parents = [p] → ∃ t, demoRepo.tree p = .ok t ∧ (["a.txt"] : Tree) = t) :=
  implicit_diff_endpoints demoRepo demoArgsImplicit
    { fromTree := ["a.txt"], toTree := ["a.txt", "b.txt"],
      copyRecords := [{ source := "1", target := "2" }],
      copyQueries := [{ pathFilter := none, fromId := 1, toId := 2 }],
      mergerInput := some [["a.txt"]],
      rendererCalls := [{ fromTree := ["a.txt"], toTree := ["a.txt", "b.txt"],
                          matcher := ["a.txt", "zzz"],
                          copyRecords := [{ source := "1", target := "2" }] }],
      unmatchedPaths := ["zzz"] }
    rfl rfl rfl

/-- C2: in implicit mode one copy-record query is issued per `(Pi, revision)`
pair, in parent order, and the per-parent results are unioned; in explicit
mode exactly one query is issued, for the `(from, to)` pair. -/
theorem copy_queries_per_mode (repo : Repo) (args : DiffArgs) (out : DiffOutcome)
    (hok : cmdDiff repo args = .ok out) :
    (args.«from» = none → args.«to» = none →
      ∃ toC parents recss,
        repo.resolveSingleRev (args.revision.getD RevisionArg.AT) = .ok toC ∧
        repo.parents toC = .ok parents ∧
        out.copyQueries = parents.map
          (fun p => { pathFilter := none, fromId := p.id, toId := toC.id }) ∧
        List.Forall₂
          (fun (p : Commit) rs => repo.getCopyRecords none p.id toC.id = .ok rs)
          parents recss ∧
        out.copyRecords = recss.flatten) ∧
    (args.«from».isSome || args.«to».isSome →
      ∃ fromC toC recs,
        repo.resolveSingleRev (args.«from».getD RevisionArg.AT) = .ok fromC ∧
        repo.resolveSingleRev (args.«to».getD RevisionArg.AT) = .ok toC ∧
        repo.getCopyRecords none fromC.id toC.id = .ok recs ∧
        out.copyQueries = [{ pathFilter := none, fromId := fromC.id, toId := toC.id }] ∧
        out.copyRecords = recs) := by
  obtain ⟨r, hres, hshow, hout⟩ := cmdDiff_ok_inv hok
  constructor
  · intro hfrom hto
    rw [hfrom, hto] at hres
    obtain ⟨toC, parents, merged, toTree, gathered, h1, h2, h3, h4, h5, hr⟩ :=
      resolveDiffEndpoints_implicit_inv hres
    obtain ⟨hqs, recss, hall, hjoin⟩ := gatherCopyRecords_ok h5
    subst hout hr
    exact ⟨toC, parents, recss, h1, h2, hqs, hall, hjoin⟩
  · intro hmode
    obtain ⟨fromC, toC, fromTree, toTree, recs, h1, h2, h3, h4, h5, hr⟩ :=
      resolveDiffEndpoints_explicit_inv hmode hres
    subst hout hr
    exact ⟨fromC, toC, recs, h1, h2, h5, rfl, rfl⟩

theorem copy_queries_per_mode_witness :
    ∃ fromC toC recs,
      demoRepo.resolveSingleRev (demoArgsExplicit.«from».getD RevisionArg.AT) = .ok fromC ∧
      demoRepo.resolveSingleRev (demoArgsExplicit.«to».getD RevisionArg.AT) = .ok toC ∧
      demoRepo.getCopyRecords none fromC.id toC.id = .ok recs ∧
      ([{ pathFilter := none, fromId := 1, toId := 2 }] : List CopyQuery) =
        [{ pathFilter := none, fromId := fromC.id, toId := toC.id }] ∧
      ([{ source := "1", target := "2" }] : List CopyRecord) = recs :=
  (copy_queries_per_mode demoRepo demoArgsExplicit
    { fromTree := ["a.txt"], toTree := ["a.txt", "b.txt"],
      copyRecords := [{ source := "1", target := "2" }],
      copyQueries := [{ pathFilter := none, fromId := 1, toId := 2 }],
      mergerInput := none,
      rendererCalls := [{ fromTree := ["a.txt"], toTree := ["a.txt", "b.txt"],
                          matcher := [],
                          copyRecords := [{ source := "1", target := "2" }] }],
      unmatchedPaths := [] }
    rfl).2 rfl

/-- C4: explicit mode is selected exactly when `from` or `to` is supplied
(the merger is consulted precisely in the other case); every unsupplied
reference, the implicit-mode `revision` included, defaults to the working-copy
reference `RevisionArg.AT`, and each supplied reference resolves independently
to exactly one commit whose tree becomes the corresponding endpoint. -/
theorem mode_selection_and_defaults (repo : Repo) (args : DiffArgs) (out : DiffOutcome)
    (hok : cmdDiff repo args = .ok out) :
    ((args.«from».isSome || args.«to».isSome) →
      out.mergerInput = none ∧
      ∃ fromC toC,
        repo.resolveSingleRev (args.«from».getD RevisionArg.AT) = .ok fromC ∧
        repo.resolveSingleRev (args.«to».getD RevisionArg.AT) = .ok toC ∧
        repo.tree fromC = .ok out.fromTree ∧
        repo.tree toC = .ok out.toTree) ∧
    (args.«from» = none → args.«to» = none →
      (∃ ts, out.mergerInput = some ts) ∧
      ∃ toC,
        repo.resolveSingleRev (args.revision.getD RevisionArg.AT) = .ok toC ∧
        repo.tree toC = .ok out.toTree) := by
  obtain ⟨r, hres, hshow, hout⟩ := cmdDiff_ok_inv hok
  constructor
  · intro hmode
    obtain ⟨fromC, toC, fromTree, toTree, recs, h1, h2, h3, h4, h5, hr⟩ :=
      resolveDiffEndpoints_explicit_inv hmode hres
    subst hout hr
    exact ⟨rfl, fromC, toC, h1, h2, h3, h4⟩
  · intro hfrom hto
    rw [hfrom, hto] at hres
    obtain ⟨toC, parents, merged, toTree, gathered, h1, h2, h3, h4, h5, hr⟩ :=
      resolveDiffEndpoints_implicit_inv hres
    subst hout hr
    exact ⟨⟨merged.2, rfl⟩, toC, h1, h4⟩

theorem mode_selection_and_defaults_witness :
    (none : Option (List Tree)) = none ∧
    ∃ fromC toC,
      demoRepo.resolveSingleRev (demoArgsExplicit.«from».getD RevisionArg.AT) = .ok fromC ∧
      demoRepo.resolveSingleRev (demoArgsExplicit.«to».getD RevisionArg.AT) = .ok toC ∧
      demoRepo.tree fromC = .ok (["a.txt"] : Tree) ∧
      demoRepo.tree toC = .ok (["a.txt", "b.txt"] : Tree) :=
  (mode_selection_and_defaults demoRepo demoArgsExplicit
    { fromTree := ["a.txt"], toTree := ["a.txt", "b.txt"],
      copyRecords := [{ source := "1", target := "2" }],
      copyQueries := [{ pathFilter := none, fromId := 1, toId := 2 }],
      mergerInput := none,
      rendererCalls := [{ fromTree := ["a.txt"], toTree := ["a.txt", "b.txt"],
                          matcher := [],
                          copyRecords := [{ source := "1", target := "2" }] }],
      unmatchedPaths := [] }
    rfl).1 rfl

/-- C9: for a revision with zero parents, implicit mode still consults the
tree-merge collaborator with the empty tree sequence (whose output becomes
`from_tree`), issues no copy-record queries, and accumulates no copy
records. -/
theorem zero_parent_implicit_diff (repo : Repo) (args : DiffArgs) (out : DiffOutcome)
    (toC : Commit)
    (hfrom : args.«from» = none) (hto : args.«to» = none)
    (hres : repo.resolveSingleRev (args.revision.getD RevisionArg.AT) = .ok toC)
    (hpar : repo.parents toC = .ok [])
    (hok : cmdDiff repo args = .ok out) :
    out.mergerInput = some [] ∧
    out.fromTree = repo.mergeTrees [] ∧
    out.copyQueries = [] ∧
    out.copyRecords = [] := by
  obtain ⟨r, hre, hshow, hout⟩ := cmdDiff_ok_inv hok
  rw [hfrom, hto] at hre
  obtain ⟨toC2, parents, merged, toTree, gathered, h1, h2, h3, h4, h5, hr⟩ :=
    resolveDiffEndpoints_implicit_inv hre
  rw [hres] at h1
  have htoC : toC = toC2 := Except.ok.inj h1
  subst htoC
  rw [hpar] at h2
  have hps : ([] : List Commit) = parents := Except.ok.inj h2
  subst hps
  obtain ⟨trees, hts, hm⟩ := mergeCommitTrees_ok h3
  rw [List.mapM_nil] at hts
  have htrees : ([] : List Tree) = trees := Except.ok.inj hts
  subst htrees
  have hg : (CopyRecords.default, ([] : List CopyQuery)) = gathered :=
    except_pure_ok_iff.mp h5
  subst hout hr hm
  rw [← hg]
  exact ⟨rfl, rfl, rfl, rfl⟩

theorem zero_parent_implicit_diff_witness :
    (some [] : Option (List Tree)) = some [] ∧
    ([] : Tree) = demoRepoRoot.mergeTrees [] ∧
    ([] : List CopyQuery) = [] ∧
    ([] : List CopyRecord) = [] :=
  zero_parent_implicit_diff demoRepoRoot demoArgsRoot
    { fromTree := [], toTree := ["r.txt"], copyRecords := [], copyQueries := [],
      mergerInput := some [],
      rendererCalls := [{ fromTree := [], toTree := ["r.txt"], matcher := [],
                          copyRecords := [] }],
      unmatchedPaths := [] }
    { id := 1 } rfl rfl rfl rfl rfl

/-- C10: every copy-record query carries no path filter, and the caller's
path restrictions never narrow copy-record gathering: changing only `paths`
leaves the issued queries and accumulated records unchanged. -/
theorem copy_queries_unfiltered (repo : Repo) (args : DiffArgs) (out : DiffOutcome)
    (hok : cmdDiff repo args = .ok out) :
    (∀ q ∈ out.copyQueries, q.pathFilter = none) ∧
    (∀ paths2 out2, cmdDiff repo { args with paths := paths2 } = .ok out2 →
      out2.copyQueries = out.copyQueries ∧ out2.copyRecords = out.copyRecords) := by
  obtain ⟨r, hres, hshow, hout⟩ := cmdDiff_ok_inv hok
  constructor
  · cases hb : (args.«from».isSome || args.«to».isSome) with
    | true =>
      obtain ⟨fromC, toC, fromTree, toTree, recs, h1, h2, h3, h4, h5, hr⟩ :=
        resolveDiffEndpoints_explicit_inv hb hres
      subst hout hr
      intro q hq
      simp only [List.mem_singleton] at hq
      subst hq
      rfl
    | false =>
      cases hf : args.«from» with
      | some v => rw [hf] at hb; simp at hb
      | none =>
        cases ht : args.«to» with
        | some v => rw [ht] at hb; simp at hb
        | none =>
          rw [hf, ht] at hres
          obtain ⟨toC, parents, merged, toTree, gathered, h1, h2, h3, h4, h5, hr⟩ :=
            resolveDiffEndpoints_implicit_inv hres
          obtain ⟨hqs, recss, hall, hjoin⟩ := gatherCopyRecords_ok h5
          subst hout hr
          intro q hq
          simp only at hq
          rw [hqs] at hq
          obtain ⟨p, _, hpq⟩ := List.mem_map.mp hq
          rw [← hpq]
  · intro paths2 out2 hok2
    obtain ⟨r2, hres2, hshow2, hout2⟩ := cmdDiff_ok_inv hok2
    have hres2' : resolveDiffEndpoints repo args.revision args.«from» args.«to» = .ok r2 :=
      hres2
    rw [hres] at hres2'
    have hrr : r = r2 := Except.ok.inj hres2'
    subst hrr hout hout2
    exact ⟨rfl, rfl⟩

theorem copy_queries_unfiltered_witness :
    (∀ q ∈ ([{ pathFilter := none, fromId := 1, toId := 2 }] : List CopyQuery),
      q.pathFilter = none) ∧
    (∀ paths2 out2, cmdDiff demoRepo { demoArgsImplicit with paths := paths2 } = .ok out2 →
      out2.copyQueries = [{ pathFilter := none, fromId := 1, toId := 2 }] ∧
      out2.copyRecords = [{ source := "1", target := "2" }]) :=
  copy_queries_unfiltered demoRepo demoArgsImplicit
    { fromTree := ["a.txt"], toTree := ["a.txt", "b.txt"],
      copyRecords := [{ source := "1", target := "2" }],
      copyQueries := [{ pathFilter := none, fromId := 1, toId := 2 }],
      mergerInput := some [["a.txt"]],
      rendererCalls := [{ fromTree := ["a.txt"], toTree := ["a.txt", "b.txt"],
                          matcher := ["a.txt", "zzz"],
                          copyRecords := [{ source := "1", target := "2" }] }],
      unmatchedPaths := ["zzz"] }
    rfl

theorem printUnmatched_count_one {expression : List String} {trees : List Tree}
    {p : String} (hp : p ∈ expression) (hnone : ∀ t ∈ trees, p ∉ t) :
    (printUnmatchedExplicitPaths expression trees).count p = 1 := by
  have hmem : p ∈ expression.filter fun q => trees.all fun t => !(t.contains q) := by
    apply List.mem_filter.mpr
    refine ⟨hp, ?_⟩
    simp only [List.all_eq_true, Bool.not_eq_true']
    intro t ht
    simpa using hnone t ht
  unfold printUnmatchedExplicitPaths
  exact List.count_eq_one_of_mem (List.nodup_dedup _) (List.mem_dedup.mpr hmem)

theorem printUnmatched_sound {expression : List String} {trees : List Tree}
    {p : String} (h : p ∈ printUnmatchedExplicitPaths expression trees) :
    p ∈ expression ∧ ∀ t ∈ trees, p ∉ t := by
  unfold printUnmatchedExplicitPaths at h
  have h2 := List.mem_dedup.mp h
  obtain ⟨hin, hcond⟩ := List.mem_filter.mp h2
  refine ⟨hin, ?_⟩
  intro t ht hmem
  simp only [List.all_eq_true, Bool.not_eq_true'] at hcond
  have := hcond t ht
  simp [hmem] at this

/-- C3: the renderer is invoked once with `(from_tree, to_tree, matcher,
copy_records)`, and a distinct, always-performed pass then checks every
explicitly named path literal against both endpoint trees, reporting exactly
once every path matching neither; reported paths indeed match neither
tree. -/
theorem diff_assembly_unmatched_pass (repo : Repo) (args : DiffArgs) (out : DiffOutcome)
    (hok : cmdDiff repo args = .ok out) :
    out.rendererCalls = [{ fromTree := out.fromTree, toTree := out.toTree,
                           matcher := toMatcher (parseFilePatterns args.paths),
                           copyRecords := out.copyRecords }] ∧
    repo.showDiff out.fromTree out.toTree (toMatcher (parseFilePatterns args.paths))
      out.copyRecords = .ok () ∧
    out.unmatchedPaths =
      printUnmatchedExplicitPaths (parseFilePatterns args.paths)
        [out.fromTree, out.toTree] ∧
    (∀ p, p ∈ parseFilePatterns args.paths → p ∉ out.fromTree → p ∉ out.toTree →
      out.unmatchedPaths.count p = 1) ∧
    (∀ p, p ∈ out.unmatchedPaths → p ∉ out.fromTree ∧ p ∉ out.toTree) := by
  obtain ⟨r, hres, hshow, hout⟩ := cmdDiff_ok_inv hok
  subst hout
  refine ⟨rfl, hshow, rfl, ?_, ?_⟩
  · intro p hp hpf hpt
    apply printUnmatched_count_one hp
    intro t ht
    simp only [List.mem_cons, List.mem_singleton, List.not_mem_nil] at ht
    rcases ht with h | h | h
    · rw [h]; exact hpf
    · rw [h]; exact hpt
    · exact absurd h (by simp)
  · intro p hp
    obtain ⟨_, hnone⟩ := printUnmatched_sound hp
    exact ⟨hnone _ (by simp), hnone _ (by simp)⟩

theorem diff_assembly_unmatched_pass_witness :
    ([{ fromTree := ["a.txt"], toTree := ["a.txt", "b.txt"],
        matcher := ["a.txt", "zzz"],
        copyRecords := [{ source := "1", target := "2" }] }] : List RendererCall) =
      [{ fromTree := ["a.txt"], toTree := ["a.txt", "b.txt"],
         matcher := toMatcher (parseFilePatterns demoArgsImplicit.paths),
         copyRecords := [{ source := "1", target := "2" }] }] ∧
    demoRepo.showDiff ["a.txt"] ["a.txt", "b.txt"]
      (toMatcher (parseFilePatterns demoArgsImplicit.paths))
      [{ source := "1", target := "2" }] = .ok () ∧
    (["zzz"] : List String) =
      printUnmatchedExplicitPaths (parseFilePatterns demoArgsImplicit.paths)
        [["a.txt"], ["a.txt", "b.txt"]] ∧
    (∀ p, p ∈ parseFilePatterns demoArgsImplicit.paths →
      p ∉ (["a.txt"] : Tree) → p ∉ (["a.txt", "b.txt"] : Tree) →
      (["zzz"] : List String).count p = 1) ∧
    (∀ p, p ∈ (["zzz"] : List String) →
      p ∉ (["a.txt"] : Tree) ∧ p ∉ (["a.txt", "b.txt"] : Tree)) :=
  diff_assembly_unmatched_pass demoRepo demoArgsImplicit
    { fromTree := ["a.txt"], toTree := ["a.txt", "b.txt"],
      copyRecords := [{ source := "1", target := "2" }],
      copyQueries := [{ pathFilter := none, fromId := 1, toId := 2 }],
      mergerInput := some [["a.txt"]],
      rendererCalls := [{ fromTree := ["a.txt"], toTree := ["a.txt", "b.txt"],
                          matcher := ["a.txt", "zzz"],
                          copyRecords := [{ source := "1", target := "2" }] }],
      unmatchedPaths := ["zzz"] }
    rfl

/-- C6: every snapshot error is one of exactly the five declared kinds —
invalid-text path (with the path), invalid-text symlink target (with path and
target), wrapped backend failure, new-untracked-file-too-large (with path,
observed size and configured maximum), or the open-ended other kind with its
opaque nested cause. -/
theorem snapshotError_taxonomy (e : SnapshotError) :
    (∃ path, e = .invalidUtf8Path path) ∨
    (∃ path target, e = .invalidUtf8SymlinkTarget path target) ∨
    (∃ err, e = .internalBackendError err) ∨
    (∃ path size maxSize, e = .newFileTooLarge path size maxSize) ∨
    (∃ message err, e = .other message err) := by
  cases e with
  | invalidUtf8Path path => exact .inl ⟨path, rfl⟩
  | invalidUtf8SymlinkTarget path target => exact .inr (.inl ⟨path, target, rfl⟩)
  | internalBackendError err => exact .inr (.inr (.inl ⟨err, rfl⟩))
  | newFileTooLarge path size maxSize =>
    exact .inr (.inr (.inr (.inl ⟨path, size, maxSize, rfl⟩)))
  | other message err => exact .inr (.inr (.inr (.inr ⟨message, err, rfl⟩)))

/-- C5: every failing snapshot attempt leaves the persisted record and
backend exactly as they were; a successful one returns a tree id to which the
record now points, at the advanced operation, with the written tree committed
in the same step. -/
theorem snapshot_atomic (env : SnapshotEnv) (st : SnapshotState) (guard : LockGuard)
    (opts : SnapshotOptions) (disk : List DiskFile) :
    (∀ e, (LockedWorkingCopy.snapshot env st guard opts disk).1 = .error e →
      (LockedWorkingCopy.snapshot env st guard opts disk).2 = st) ∧
    (∀ treeId, (LockedWorkingCopy.snapshot env st guard opts disk).1 = .ok treeId →
      (LockedWorkingCopy.snapshot env st guard opts disk).2.record.tree_id = treeId ∧
      (LockedWorkingCopy.snapshot env st guard opts disk).2.record.operation_id =
        env.new_operation_id ∧
      ∃ entries,
        (treeId, entries) ∈ (LockedWorkingCopy.snapshot env st guard opts disk).2.backendTrees ∧
        env.writeTree entries = .ok treeId) := by
  by_cases hid : st.record.operation_id ≠ guard.old_operation_id
  · have hsnap : LockedWorkingCopy.snapshot env st guard opts disk =
        (.error (.other "concurrent working-copy change" "stale record"), st) := by
      unfold LockedWorkingCopy.snapshot
      rw [if_pos hid]
    rw [hsnap]
    exact ⟨fun e _ => rfl, fun tid h => by simp at h⟩
  · cases hw : snapshotWalk opts ((st.backendTrees.lookup guard.old_tree_id).getD []) disk with
    | error e =>
      have hsnap : LockedWorkingCopy.snapshot env st guard opts disk = (.error e, st) := by
        unfold LockedWorkingCopy.snapshot
        rw [if_neg hid]
        simp only [hw]
      rw [hsnap]
      exact ⟨fun e2 _ => rfl, fun tid h => by simp at h⟩
    | ok res =>
      obtain ⟨entries, invoked⟩ := res
      cases hwt : env.writeTree entries with
      | error e =>
        have hsnap : LockedWorkingCopy.snapshot env st guard opts disk =
            (.error (.internalBackendError e), st) := by
          unfold LockedWorkingCopy.snapshot
          rw [if_neg hid]
          simp only [hw, hwt]
        rw [hsnap]
        exact ⟨fun e2 _ => rfl, fun tid h => by simp at h⟩
      | ok tid =>
        have hsnap : LockedWorkingCopy.snapshot env st guard opts disk =
            (.ok tid,
             { record := { workspace_id := st.record.workspace_id
                           operation_id := env.new_operation_id
                           tree_id := tid }
               backendTrees := st.backendTrees ++ [(tid, entries)] }) := by
          unfold LockedWorkingCopy.snapshot
          rw [if_neg hid]
          simp only [hw, hwt]
        rw [hsnap]
        constructor
        · intro e he
          simp at he
        · intro tid2 h
          have htid : tid = tid2 := by simpa using h
          subst htid
          exact ⟨rfl, rfl, entries, by simp, hwt⟩

/-- A concrete snapshot configuration and state used by the witnesses. -/
def opts0 : SnapshotOptions :=
  { base_ignores := [], fsmonitor_kind := none, progress := none,
    max_new_file_size := 2 }

def st0 : SnapshotState :=
  { record := { workspace_id := "ws", operation_id := 3, tree_id := 5 }
    backendTrees := [] }

def guard0 : LockGuard := { old_operation_id := 3, old_tree_id := 5 }

def envOk : SnapshotEnv := { writeTree := fun _ => .ok 7, new_operation_id := 4 }

def envBad : SnapshotEnv :=
  { writeTree := fun _ => .error "disk full", new_operation_id := 4 }

theorem snapshot_atomic_witness :
    ((LockedWorkingCopy.snapshot envOk st0 guard0 opts0 []).2.record.tree_id = 7 ∧
      (LockedWorkingCopy.snapshot envOk st0 guard0 opts0 []).2.record.operation_id =
        envOk.new_operation_id ∧
      ∃ entries,
        (7, entries) ∈ (LockedWorkingCopy.snapshot envOk st0 guard0 opts0 []).2.backendTrees ∧
        envOk.writeTree entries = .ok 7) ∧
    (LockedWorkingCopy.snapshot envBad st0 guard0 opts0 []).2 = st0 :=
  ⟨(snapshot_atomic envOk st0 guard0 opts0 []).2 7 rfl,
   (snapshot_atomic envBad st0 guard0 opts0 []).1 (.internalBackendError "disk full") rfl⟩

theorem snapshotWalk_ok_entry {opts : SnapshotOptions} {oldTree : TreeEntries} :
    ∀ {disk : List DiskFile} {entries : TreeEntries} {invoked : List RepoPath},
    snapshotWalk opts oldTree disk = .ok (entries, invoked) →
    ∀ f ∈ disk, ∃ entry, snapshotFileEntry opts oldTree f = .ok entry ∧
      ∀ en, entry = some en → en ∈ entries
  | [], entries, invoked, _, f, hf => absurd hf (List.not_mem_nil f)
  | g :: fs, entries, invoked, h, f, hf => by
    rw [snapshotWalk] at h
    cases hd : decodeText g.path with
    | none => rw [hd] at h; exact absurd h (by simp)
    | some path =>
      rw [hd] at h
      cases hs : snapshotFileEntry opts oldTree g with
      | error e => rw [hs] at h; exact absurd h (by simp)
      | ok entry =>
        rw [hs] at h
        cases hr : snapshotWalk opts oldTree fs with
        | error e => rw [hr] at h; exact absurd h (by simp)
        | ok res =>
          obtain ⟨entries2, invoked2⟩ := res
          rw [hr] at h
          simp only [Except.ok.injEq, Prod.mk.injEq] at h
          obtain ⟨hent, hinv⟩ := h
          rcases List.mem_cons.mp hf with hfg | hftail
          · subst hfg
            refine ⟨entry, hs, ?_⟩
            intro en hen
            subst hen
            rw [← hent]
            simp
          · obtain ⟨entry2, hs2, hmem2⟩ := snapshotWalk_ok_entry hr f hftail
            refine ⟨entry2, hs2, ?_⟩
            intro en hen
            have := hmem2 en hen
            rw [← hent]
            cases entry with
            | none => exact this
            | some en2 => exact List.mem_cons_of_mem en2 this

/-- C7: a file already tracked in the prior tree is snapshotted regardless of
its current size and, on a successful walk, appears in the new tree; the
`max_new_file_size` policy applies only to previously-untracked files, and an
untracked file exceeding it fails the per-file step with the offending path
and both sizes, aborting the whole walk. -/
theorem tracked_exempt_size_limit_new_only (opts : SnapshotOptions)
    (oldTree : TreeEntries) (disk : List DiskFile) (f : DiskFile) (path : RepoPath)
    (hdec : decodeText f.path = some path)
    (hign : path ∉ opts.base_ignores)
    (hreg : f.symlinkTarget = none) :
    ((oldTree.lookup path).isSome →
      snapshotFileEntry opts oldTree f = .ok (some (path, f.content)) ∧
      ∀ entries invoked, f ∈ disk →
        snapshotWalk opts oldTree disk = .ok (entries, invoked) →
        (path, f.content) ∈ entries) ∧
    ((oldTree.lookup path).isNone → opts.max_new_file_size < f.content.length →
      snapshotFileEntry opts oldTree f =
        .error (.newFileTooLarge f.path f.content.length opts.max_new_file_size) ∧
      ∀ res, f ∈ disk → snapshotWalk opts oldTree disk ≠ .ok res) := by
  constructor
  · intro htracked
    have hfe : snapshotFileEntry opts oldTree f = .ok (some (path, f.content)) := by
      simp only [snapshotFileEntry, hdec]
      simp [hign, hreg, htracked]
    refine ⟨hfe, ?_⟩
    intro entries invoked hfd hw
    obtain ⟨entry, hs, hmem⟩ := snapshotWalk_ok_entry hw f hfd
    rw [hfe] at hs
    have : some (path, f.content) = entry := Except.ok.inj hs
    exact hmem _ this.symm
  · intro hfree hbig
    have hfe : snapshotFileEntry opts oldTree f =
        .error (.newFileTooLarge f.path f.content.length opts.max_new_file_size) := by
      simp only [snapshotFileEntry, hdec]
      simp [hign, hreg, Option.isNone_iff_eq_none.mp hfree, hbig]
    refine ⟨hfe, ?_⟩
    intro res hfd hw
    obtain ⟨entries, invoked⟩ := res
    obtain ⟨entry, hs, _⟩ := snapshotWalk_ok_entry hw f hfd
    rw [hfe] at hs
    exact absurd hs (by simp)

/-- Path name used by the witnesses: the decoding of the byte 97. -/
def demoPathA : RepoPath := String.mk [Char.ofNat 97]

/-- Path name used by the witnesses: the decoding of the byte 98. -/
def demoPathB : RepoPath := String.mk [Char.ofNat 98]

/-- Prior tree for the witnesses: one tracked file at `demoPathA`. -/
def oldTree0 : TreeEntries := [(demoPathA, [1])]

/-- A tracked file whose content (3 bytes) exceeds `opts0.max_new_file_size`
(2 bytes). -/
def fileTracked : DiskFile := { path := [97], symlinkTarget := none, content := [9, 9, 9] }

/-- An untracked file whose content (3 bytes) exceeds
`opts0.max_new_file_size` (2 bytes). -/
def fileBig : DiskFile := { path := [98], symlinkTarget := none, content := [0, 0, 0] }

theorem tracked_exempt_size_limit_new_only_witness :
    (snapshotFileEntry opts0 oldTree0 fileTracked = .ok (some (demoPathA, [9, 9, 9])) ∧
      (demoPathA, ([9, 9, 9] : List Nat)) ∈ ([(demoPathA, [9, 9, 9])] : TreeEntries)) ∧
    (snapshotFileEntry opts0 oldTree0 fileBig =
      .error (.newFileTooLarge [98] 3 2) ∧
      snapshotWalk opts0 oldTree0 [fileTracked, fileBig] ≠
        .ok ([(demoPathA, [9, 9, 9])], [demoPathA, demoPathB])) := by
  have h1 := (tracked_exempt_size_limit_new_only opts0 oldTree0 [fileTracked]
    fileTracked demoPathA rfl (by simp [opts0]) rfl).1 (by decide)
  have h2 := (tracked_exempt_size_limit_new_only opts0 oldTree0 [fileTracked, fileBig]
    fileBig demoPathB rfl (by simp [opts0]) rfl).2 (by decide) (by decide)
  exact ⟨⟨h1.1, h1.2 [(demoPathA, [9, 9, 9])] [demoPathA] (by simp) rfl⟩,
         ⟨h2.1, h2.2 ([(demoPathA, [9, 9, 9])], [demoPathA, demoPathB]) (by simp)⟩⟩

theorem snapshotFileEntry_progress_irrelevant (opts : SnapshotOptions)
    (p1 p2 : Option SnapshotProgress) (oldTree : TreeEntries) (f : DiskFile) :
    snapshotFileEntry { opts with progress := p1 } oldTree f =
    snapshotFileEntry { opts with progress := p2 } oldTree f := rfl

theorem snapshotWalk_progress_irrelevant (opts : SnapshotOptions)
    (p1 p2 : Option SnapshotProgress) (oldTree : TreeEntries) :
    ∀ disk, snapshotWalk { opts with progress := p1 } oldTree disk =
      snapshotWalk { opts with progress := p2 } oldTree disk
  | [] => rfl
  | f :: fs => by
    rw [snapshotWalk, snapshotWalk,
      snapshotWalk_progress_irrelevant opts p1 p2 oldTree fs]
    rfl

theorem snapshotWalk_invocations {opts : SnapshotOptions} {oldTree : TreeEntries} :
    ∀ {disk : List DiskFile} {entries : TreeEntries} {invoked : List RepoPath},
    snapshotWalk opts oldTree disk = .ok (entries, invoked) →
    List.Forall₂ (fun (f : DiskFile) p => decodeText f.path = some p) disk invoked
  | [], entries, invoked, h => by
    simp only [snapshotWalk, Except.ok.injEq, Prod.mk.injEq] at h
    rw [← h.2]
    exact List.Forall₂.nil
  | f :: fs, entries, invoked, h => by
    rw [snapshotWalk] at h
    cases hd : decodeText f.path with
    | none => rw [hd] at h; exact absurd h (by simp)
    | some path =>
      rw [hd] at h
      cases hs : snapshotFileEntry opts oldTree f with
      | error e => rw [hs] at h; exact absurd h (by simp)
      | ok entry =>
        rw [hs] at h
        cases hr : snapshotWalk opts oldTree fs with
        | error e => rw [hr] at h; exact absurd h (by simp)
        | ok res =>
          obtain ⟨entries2, invoked2⟩ := res
          rw [hr] at h
          simp only [Except.ok.injEq, Prod.mk.injEq] at h
          rw [← h.2]
          exact List.Forall₂.cons hd (snapshotWalk_invocations hr)

/-- C8: the snapshot's result is identical whichever observer (or none) is
configured, and on a successful walk the observer's invocation sequence is
exactly one invocation per processed file, in order, at that file's decoded
path. -/
theorem progress_observer_noninterference (env : SnapshotEnv) (st : SnapshotState)
    (guard : LockGuard) (opts : SnapshotOptions) (disk : List DiskFile) :
    (∀ p1 p2 : Option SnapshotProgress,
      LockedWorkingCopy.snapshot env st guard { opts with progress := p1 } disk =
      LockedWorkingCopy.snapshot env st guard { opts with progress := p2 } disk) ∧
    (∀ oldTree entries invoked,
      snapshotWalk opts oldTree disk = .ok (entries, invoked) →
      List.Forall₂ (fun (f : DiskFile) p => decodeText f.path = some p) disk invoked) := by
  constructor
  · intro p1 p2
    unfold LockedWorkingCopy.snapshot
    rw [snapshotWalk_progress_irrelevant opts p1 p2]
  · intro oldTree entries invoked hw
    exact snapshotWalk_invocations hw

theorem progress_observer_noninterference_witness :
    LockedWorkingCopy.snapshot envOk st0 guard0
      { opts0 with progress := some fun _ => () } [fileTracked] =
    LockedWorkingCopy.snapshot envOk st0 guard0 { opts0 with progress := none }
      [fileTracked] ∧
    List.Forall₂ (fun (f : DiskFile) p => decodeText f.path = some p)
      [fileTracked] [demoPathA] :=
  ⟨(progress_observer_noninterference envOk st0 guard0 opts0 [fileTracked]).1
      (some fun _ => ()) none,
   (progress_observer_noninterference envOk st0 guard0 opts0 [fileTracked]).2
      oldTree0 [(demoPathA, [9, 9, 9])] [demoPathA] rfl⟩

end JJ
